import Mathlib

/-!
Verification of the source-set resolver and command assembler of the
protoc-go package (compiler.go and the historical buildCommand variant
with include-path deduplication).  The Go code is shallowly embedded:
filesystem access (os.Stat, os.ReadFile, os.Open) is modelled by an
abstract `GoFS`, and the path manipulation of Go `path/filepath`
(Clean, Join, Dir, Rel, Abs) is implemented over an explicit separator
convention `GoOS` so that the POSIX and Windows semantics of the same
Go code are both expressible.
-/

namespace ProtocGo

/-- Separator convention of a host operating system: the set of characters
accepted as path separators on input and the canonical separator used on
output (Go path/filepath semantics). -/
structure GoOS where
  seps : List Char
  sep : Char

def backslash : Char := Char.ofNat 92

def posixOS : GoOS := ⟨[Char.ofNat 47], Char.ofNat 47⟩

def windowsOS : GoOS := ⟨[Char.ofNat 47, backslash], backslash⟩

def isSep (os : GoOS) (c : Char) : Bool := os.seps.contains c

/-- Whether the path begins with a separator (the leading-separator test that
Go path/filepath.Rel performs on cleaned paths). -/
def isSlashed (os : GoOS) (p : String) : Bool :=
  match p.toList with
  | c :: _ => isSep os c
  | [] => false

def sepStr (os : GoOS) : String := String.mk [os.sep]

/-- Split a character list at every occurrence of a separator. -/
def splitSeps (os : GoOS) : List Char → List Char → List (List Char)
  | cur, [] => [cur.reverse]
  | cur, c :: rest =>
    if isSep os c then cur.reverse :: splitSeps os [] rest
    else splitSeps os (c :: cur) rest

/-- Path elements of `p`: raw separator-split pieces with empty pieces and
single dots removed, as in the element walk of Go filepath.Clean. -/
def pathSegs (os : GoOS) (p : String) : List String :=
  ((splitSeps os [] p.toList).map (fun l => String.mk l)).filter
    (fun s => s ≠ "" && s ≠ ".")

/-- Element stack of Go filepath.Clean: double dots pop a previous element,
except at the root of a rooted path, and accumulate at the front of a
relative path. -/
def cleanSegsAux (rooted : Bool) : List String → List String → List String
  | acc, [] => acc.reverse
  | acc, s :: rest =>
    if s = ".." then
      match acc with
      | [] => if rooted then cleanSegsAux rooted [] rest else cleanSegsAux rooted [s] rest
      | a :: tl =>
        if a = ".." then cleanSegsAux rooted (s :: a :: tl) rest
        else cleanSegsAux rooted tl rest
    else cleanSegsAux rooted (s :: acc) rest

/-- Go filepath.Clean over the separator convention `os`. -/
def pathClean (os : GoOS) (p : String) : String :=
  let rooted := isSlashed os p
  let segs := cleanSegsAux rooted [] (pathSegs os p)
  if rooted then sepStr os ++ String.intercalate (sepStr os) segs
  else if segs.isEmpty then "." else String.intercalate (sepStr os) segs

/-- Go filepath.Join of two elements: empty elements are dropped, the rest are
joined with the separator and cleaned. -/
def pathJoin (os : GoOS) (a b : String) : String :=
  if a = "" then (if b = "" then "" else pathClean os b)
  else if b = "" then pathClean os a
  else pathClean os (a ++ sepStr os ++ b)

/-- Go filepath.Dir: everything up to and including the final separator,
cleaned; a path without separator has directory the dot. -/
def pathDir (os : GoOS) (p : String) : String :=
  let r := p.toList.reverse
  let kept := r.dropWhile (fun c => !(isSep os c))
  pathClean os (String.mk kept.reverse)

/-- Drop the common leading elements of two segment lists (the common-prefix
walk of Go filepath.Rel). -/
def dropCommon : List String → List String → List String × List String
  | a :: as_, b :: bs => if a = b then dropCommon as_ bs else (a :: as_, b :: bs)
  | as_, bs => (as_, bs)

/-- Go filepath.Rel: clean both paths, fail on a rooted and a relative path
mixed or when the remaining base elements start with a double dot, otherwise
climb with double dots and descend with the target remainder. -/
def goRel (os : GoOS) (base targ : String) : Option String :=
  let b := pathClean os base
  let t := pathClean os targ
  if b = t then some "." else
  if isSlashed os b ≠ isSlashed os t then none else
  let p := dropCommon (pathSegs os b) (pathSegs os t)
  match p.1 with
  | ".." :: _ => none
  | bs =>
    let res := List.replicate bs.length ".." ++ p.2
    if res.isEmpty then some "." else some (String.intercalate (sepStr os) res)

/-- Abstract filesystem: the working directory, the success of os.Stat per
path, and the readable content of each file (none models a read error). -/
structure GoFS where
  cwd : String
  statOk : String → Bool
  content : String → Option String

/-- Go filepath.Abs: an already rooted path is cleaned, a relative path is
joined with the working directory. -/
def goAbs (os : GoOS) (fs : GoFS) (p : String) : String :=
  if isSlashed os p then pathClean os p else pathJoin os fs.cwd p

def dquote : Char := Char.ofNat 34

def squote : Char := Char.ofNat 39

def newlineChar : Char := Char.ofNat 10

def crChar : Char := Char.ofNat 13

def obrace : Char := Char.ofNat 123

/-- Character class of the regexp escape for whitespace in Go (tab, newline,
form feed, carriage return, space). -/
def isGoSpace (c : Char) : Bool :=
  c = ' ' || c = Char.ofNat 9 || c = Char.ofNat 10 || c = Char.ofNat 12 || c = Char.ofNat 13

/-- Character class of the regexp escape for word characters in Go
(letters, digits, underscore). -/
def isWordChar (c : Char) : Bool := c.isAlphanum || c = Char.ofNat 95

/-- Split a character list at the quote character `q`: the characters before
the first occurrence and the remainder after it, or none when `q` is absent. -/
def takeUntilChar (q : Char) : List Char → Option (List Char × List Char)
  | [] => none
  | c :: rest =>
    if c = q then some ([], rest)
    else match takeUntilChar q rest with
      | none => none
      | some pr => some (c :: pr.1, pr.2)

/-- Match a quoted literal body right after an opening quote `q`: at least one
character other than `q`, then the closing `q`. -/
def matchQuoted (q : Char) (cs : List Char) : Option String :=
  match takeUntilChar q cs with
  | some pr => if pr.1 = [] then none else some (String.mk pr.1)
  | none => none

/-- Match the import regexp of parseImportsFromFile at exactly this position:
the literal keyword, one or more whitespace characters, then a double- or
single-quoted nonempty literal whose body is captured. -/
def matchImportAt (cs : List Char) : Option String :=
  if cs.take 6 = "import".toList then
    let rest := cs.drop 6
    if rest.takeWhile isGoSpace = [] then none
    else
      match rest.dropWhile isGoSpace with
      | c :: tail =>
        if c = dquote then matchQuoted dquote tail
        else if c = squote then matchQuoted squote tail
        else none
      | [] => none
  else none

/-- Leftmost match of the import regexp in a line, as FindStringSubmatch
returns it. -/
def scanImport : List Char → Option String
  | [] => none
  | c :: rest =>
    match matchImportAt (c :: rest) with
    | some s => some s
    | none => scanImport rest

/-- Cut the line at the first double slash, as the comment stripping of
parseImportsFromFile does with strings.Index. -/
def stripComment : List Char → List Char
  | [] => []
  | [c] => [c]
  | c :: d :: rest =>
    if c = Char.ofNat 47 && d = Char.ofNat 47 then []
    else c :: stripComment (d :: rest)

/-- Whether the keyword occurs as a substring (the strings.Contains gate of
parseImportsFromFile). -/
def hasSubstrImport : List Char → Bool
  | [] => false
  | c :: rest => ((c :: rest).take 6 = "import".toList) || hasSubstrImport rest

/-- Per-line work of parseImportsFromFile: strip the end-of-line comment,
gate on the keyword substring, then take the leftmost regexp match. -/
def lineImport (line : String) : Option String :=
  let cs := stripComment line.toList
  if hasSubstrImport cs then scanImport cs else none

/-- Split a character list at every occurrence of the character `ch`. -/
def splitOnChar (ch : Char) : List Char → List Char → List (List Char)
  | cur, [] => [cur.reverse]
  | cur, c :: rest =>
    if c = ch then cur.reverse :: splitOnChar ch [] rest
    else splitOnChar ch (c :: cur) rest

/-- Drop one trailing carriage return, as the line splitter of bufio does. -/
def dropCR (l : List Char) : List Char :=
  match l.reverse with
  | c :: rest => if c = crChar then rest.reverse else l
  | [] => l

/-- Lines of a file as the bufio line scanner yields them: split at newlines,
no token for a trailing newline, carriage returns stripped. -/
def goScanLines (s : String) : List String :=
  let parts := splitOnChar newlineChar [] s.toList
  let parts :=
    match parts.reverse with
    | [] :: rest => rest.reverse
    | _ => parts
  parts.map (fun l => String.mk (dropCR l))

/-- Embedding of parseImportsFromFile: none models the open error of an
unreadable file, otherwise the captured import literals line by line. -/
def parseImportsFromFile (fs : GoFS) (filePath : String) : Option (List String) :=
  match fs.content filePath with
  | none => none
  | some s => some ((goScanLines s).filterMap lineImport)

/-- Match the definition regexp of fileHasServiceDefinition at this position:
keyword, one or more whitespace characters, one or more word characters, any
whitespace, then an opening brace. -/
def matchKwBraceAt (kw : List Char) (cs : List Char) : Bool :=
  if cs.take kw.length = kw then
    let rest := cs.drop kw.length
    if rest.takeWhile isGoSpace = [] then false
    else
      let rest2 := rest.dropWhile isGoSpace
      if rest2.takeWhile isWordChar = [] then false
      else
        match (rest2.dropWhile isWordChar).dropWhile isGoSpace with
        | c :: _ => c = obrace
        | [] => false
  else false

/-- Whether the definition regexp matches anywhere in the content. -/
def hasKwMatch (kw : List Char) : List Char → Bool
  | [] => false
  | c :: rest => matchKwBraceAt kw (c :: rest) || hasKwMatch kw rest

/-- Embedding of fileHasServiceDefinition; the caller discards the read error,
so an unreadable file counts as having no service definition. -/
def fileHasServiceDefinition (fs : GoFS) (filePath : String) : Bool :=
  match fs.content filePath with
  | none => false
  | some s => hasKwMatch "service".toList s.toList

/-- Embedding of fileHasMessageDefinitions; the caller discards the read
error, so an unreadable file counts as having no message definition. -/
def fileHasMessageDefinitions (fs : GoFS) (filePath : String) : Bool :=
  match fs.content filePath with
  | none => false
  | some s => hasKwMatch "message".toList s.toList

/-- Embedding of resolveImportPath of compiler.go: try the directory of the
source file, then the proto directory, and fail otherwise. -/
def resolveImportPath (os : GoOS) (fs : GoFS) (importPath sourceFile protoDir : String) :
    Option String :=
  let possible1 := pathJoin os (pathDir os sourceFile) importPath
  if fs.statOk possible1 then some (goAbs os fs possible1)
  else
    let possible2 := pathJoin os protoDir importPath
    if fs.statOk possible2 then some (goAbs os fs possible2)
    else none

/-- Configuration snapshot of the Compiler struct of compiler.go (the fields
the resolution pipeline and the command assembler read). -/
structure Compiler where
  protoDir : String
  outputDir : String
  protoPaths : List String
  plugins : List String
  goOpts : List String
  goGrpcOpts : List String
  verbose : Bool
  foundFiles : List String
  additionalProtoPaths : List String
  smartFilter : Bool

/-- Increment of a Go map counter entry. -/
def bumpCount (m : String → Nat) (key : String) : String → Nat :=
  fun x => if x = key then m key + 1 else m x

/-- Contribution of one discovered file to fileImportCount: a file whose parse
fails contributes nothing, otherwise every resolved import occurrence
increments the counter of its resolved absolute path. -/
def countImportsOfFile (os : GoOS) (fs : GoFS) (protoDir : String)
    (m : String → Nat) (file : String) : String → Nat :=
  match parseImportsFromFile fs file with
  | none => m
  | some imports =>
    imports.foldl
      (fun acc imp =>
        match resolveImportPath os fs imp file protoDir with
        | none => acc
        | some absImportPath => bumpCount acc absImportPath) m

/-- Embedding of the fileImportCount map of filterImportedOnlyFiles. -/
def fileImportCount (os : GoOS) (fs : GoFS) (c : Compiler) : String → Nat :=
  c.foundFiles.foldl (countImportsOfFile os fs c.protoDir) (fun _ => 0)

/-- Keep decision of filterImportedOnlyFiles for one file. -/
def keepFile (fs : GoFS) (counts : String → Nat) (file : String) : Bool :=
  let importCount := counts file
  let hasService := fileHasServiceDefinition fs file
  let hasMessages := fileHasMessageDefinitions fs file
  importCount == 0 || hasService || (hasMessages && importCount == 0)

/-- Explicit compile candidates before the empty-result fallback. -/
def filteredBeforeFallback (os : GoOS) (fs : GoFS) (c : Compiler) : List String :=
  c.foundFiles.filter (keepFile fs (fileImportCount os fs c))

/-- Embedding of filterImportedOnlyFiles: lists of at most one file pass
through, and an empty keep result falls back to the full discovered list. -/
def filterImportedOnlyFiles (os : GoOS) (fs : GoFS) (c : Compiler) : List String :=
  if c.foundFiles.length ≤ 1 then c.foundFiles
  else
    let filtered := filteredBeforeFallback os fs c
    if filtered.length = 0 then c.foundFiles else filtered

/-- The Go signature of filterImportedOnlyFiles also carries an error value;
this translation keeps that shape: parse and resolve failures are consumed by
the continue statements and the read errors of the definition checks are
discarded, so every control path ends in ok. -/
def filterImportedOnlyFilesE (os : GoOS) (fs : GoFS) (c : Compiler) :
    Except String (List String) :=
  if c.foundFiles.length ≤ 1 then .ok c.foundFiles
  else
    let filtered := c.foundFiles.filter (keepFile fs (fileImportCount os fs c))
    if filtered.length = 0 then .ok c.foundFiles else .ok filtered

/-- File-selection step of Compile: smart filtering runs only when more than
one file was discovered, and its result replaces the list only when
non-empty. -/
def compileSelectFiles (os : GoOS) (fs : GoFS) (c : Compiler) : List String :=
  if c.smartFilter && decide (c.foundFiles.length > 1) then
    let filteredFiles := filterImportedOnlyFiles os fs c
    if filteredFiles.length > 0 then filteredFiles else c.foundFiles
  else c.foundFiles

/-- Embedding of buildPluginOpts: the optional leading element and the option
list joined with commas and a colon, before the output directory. -/
def buildPluginOpts (pre : String) (options : List String) (outputDir : String) : String :=
  let opts := (if pre = "" then ([] : List String) else [pre]) ++ options
  let optStr := if opts.length > 0 then String.intercalate "," opts ++ ":" else ""
  optStr ++ outputDir

/-- Output flag of buildCommand for one plugin: the two known plugins carry
their option lists, any other plugin name falls back to the generic pattern. -/
def pluginFlag (c : Compiler) (plugin : String) : String :=
  if plugin = "go" then "--go_out=" ++ buildPluginOpts "" c.goOpts c.outputDir
  else if plugin = "go-grpc" then "--go-grpc_out=" ++ buildPluginOpts "" c.goGrpcOpts c.outputDir
  else "--" ++ plugin ++ "_out=" ++ c.outputDir

/-- File argument of buildCommand: the path relative to the proto directory,
or the file itself when filepath.Rel fails. -/
def fileArg (os : GoOS) (c : Compiler) (file : String) : String :=
  match goRel os c.protoDir file with
  | some relPath => relPath
  | none => file

/-- Warning printed by buildCommand when filepath.Rel fails for a file. -/
def outsideWarning (file protoDir : String) : String :=
  "Warning: File " ++ file ++ " is outside proto directory " ++ protoDir

/-- Argument list assembled by buildCommand of compiler.go: the single include
flag for the proto directory, one output flag per plugin, then one argument
per file of the compile set. -/
def buildCommandArgs (os : GoOS) (c : Compiler) : List String :=
  let args := ["-I", c.protoDir]
  let args := c.plugins.foldl (fun a plugin => a ++ [pluginFlag c plugin]) args
  c.foundFiles.foldl (fun a file => a ++ [fileArg os c file]) args

/-- Argument assembly together with the verbose diagnostics it prints: the
warning for a file whose relative path cannot be computed is emitted exactly
where the absolute fallback happens, guarded by the verbose flag. -/
def buildCommandDiag (os : GoOS) (c : Compiler) : List String × List String :=
  let args := ["-I", c.protoDir]
  let args := c.plugins.foldl (fun a plugin => a ++ [pluginFlag c plugin]) args
  c.foundFiles.foldl
    (fun st file =>
      match goRel os c.protoDir file with
      | none =>
        (st.1 ++ [file], st.2 ++ (if c.verbose then [outsideWarning file c.protoDir] else []))
      | some relPath => (st.1 ++ [relPath], st.2))
    (args, [])

/-- Seen-set step of the include-path deduplication of the historical
buildCommand variant: a path whose canonical form was already seen is not
re-emitted. -/
def addIncludePath (canon : String → String) (st : List String × List String)
    (path : String) : List String × List String :=
  let absPath := canon path
  if st.1.contains absPath then st
  else (absPath :: st.1, st.2 ++ [path])

/-- Ordered duplicate-free root list produced by the deduplicating
buildCommand variant, parameterized by the canonicalization (filepath.Abs at
the call site). -/
def dedupRoots (canon : String → String) (roots : List String) : List String :=
  (roots.foldl (addIncludePath canon) ([], [])).2

/-- Include flags emitted for a deduplicated root list. -/
def includeFlags (roots : List String) : List String :=
  roots.flatMap (fun p => ["-I", p])

/-- Argument list of the historical buildCommand variant with include-path
deduplication: the proto directory first, then the caller-supplied and
auto-detected roots, each emitted once per canonical directory. -/
def buildCommandArgsV5 (os : GoOS) (fs : GoFS) (c : Compiler) : List String :=
  includeFlags (dedupRoots (goAbs os fs) (c.protoDir :: (c.protoPaths ++ c.additionalProtoPaths)))
    ++ c.plugins.map (pluginFlag c) ++ c.foundFiles

/-- Resolution of an import literal as the specification words it, written
for comparison with resolveImportPath: the directory of the referencing file,
the primary root, the extra roots in order, then an upward walk from the
primary root (given here a fuel bound, since the walk of the specification
stops only at the filesystem root). -/
def tryRootsInOrder (os : GoOS) (fs : GoFS) (lit : String) : List String → Option String
  | [] => none
  | r :: rest =>
    let p := pathJoin os r lit
    if fs.statOk p then some (goAbs os fs p) else tryRootsInOrder os fs lit rest

/-- Upward walk of the specification: join the literal at each level from the
start directory toward the filesystem root, stopping at the first match. -/
def upwardWalk (os : GoOS) (fs : GoFS) (lit : String) : Nat → String → Option String
  | 0, _ => none
  | fuel + 1, dir =>
    let p := pathJoin os dir lit
    if fs.statOk p then some (goAbs os fs p)
    else
      let parent := pathDir os dir
      if parent = dir then none else upwardWalk os fs lit fuel parent

/-- Four-step resolution order claimed by the specification for a literal
referenced from a file, stated over the same filesystem model. -/
def specResolveImport (os : GoOS) (fs : GoFS) (lit srcFile protoDir : String)
    (extraRoots : List String) (fuel : Nat) : Option String :=
  let p1 := pathJoin os (pathDir os srcFile) lit
  if fs.statOk p1 then some (goAbs os fs p1)
  else
    let p2 := pathJoin os protoDir lit
    if fs.statOk p2 then some (goAbs os fs p2)
    else
      match tryRootsInOrder os fs lit extraRoots with
      | some r => some r
      | none => upwardWalk os fs lit fuel protoDir

/-- Two-step resolution order actually implemented by resolveImportPath,
written from the amended specification words: the directory of the
referencing file, then the primary root, first existing match wins. -/
def specResolveTwoStep (os : GoOS) (fs : GoFS) (lit srcFile protoDir : String) :
    Option String :=
  let p1 := pathJoin os (pathDir os srcFile) lit
  if fs.statOk p1 then some (goAbs os fs p1)
  else
    let p2 := pathJoin os protoDir lit
    if fs.statOk p2 then some (goAbs os fs p2)
    else none

/-- Number of import statement occurrences of a source file whose resolution
yields the given target (the quantity the in-degree counter of
filterImportedOnlyFiles actually accumulates). -/
def resolvedOccurrences (os : GoOS) (fs : GoFS) (protoDir srcFile target : String) : Nat :=
  match parseImportsFromFile fs srcFile with
  | none => 0
  | some imports =>
    (imports.filter (fun imp => resolveImportPath os fs imp srcFile protoDir == some target)).length

/-- Membership in the allImports set collected by analyzeImports: a literal
is in the set when some discovered file parses successfully and declares it;
a file whose parse fails is skipped and contributes nothing. -/
def allImportsMem (fs : GoFS) (files : List String) (imp : String) : Bool :=
  files.any (fun file =>
    match parseImportsFromFile fs file with
    | none => false
    | some imports => imports.contains imp)

/-- Diagnostics contributed by one compile-set file during argument assembly:
the outside warning when the relative path fails and verbose output is on. -/
def fileDiag (os : GoOS) (c : Compiler) (file : String) : List String :=
  match goRel os c.protoDir file with
  | none => if c.verbose then [outsideWarning file c.protoDir] else []
  | some _ => []

/-- A filesystem with no readable files, used by concrete instances. -/
def fsEmpty : GoFS := ⟨"/w", fun _ => false, fun _ => none⟩

/-- Concrete filesystem of the duplicate-import-line scenario: the first
file references the second with the same literal on two lines. -/
def fsDup : GoFS :=
  { cwd := "/w"
  , statOk := fun p => p == "/r/a.proto" || p == "/r/b.proto"
  , content := fun p =>
      if p == "/r/a.proto" then some "import \"b.proto\";\nimport \"b.proto\";"
      else if p == "/r/b.proto" then some "message M \x7b\x7d"
      else none }

/-- Concrete configuration of the duplicate-import-line scenario. -/
def cDup : Compiler :=
  { protoDir := "/r", outputDir := "/out", protoPaths := [], plugins := ["go"]
  , goOpts := [], goGrpcOpts := [], verbose := false
  , foundFiles := ["/r/a.proto", "/r/b.proto"], additionalProtoPaths := []
  , smartFilter := true }

/-- Concrete filesystem where an import literal exists only below an extra
search root: not below the directory of the referencing file and not below
the primary root. -/
def fsExtraRoot : GoFS :=
  { cwd := "/w"
  , statOk := fun p => p == "/w/e/lib/x.proto" || p == "/w/r/a.proto"
  , content := fun _ => none }

/-- Concrete single-file configuration. -/
def cSingle : Compiler :=
  { protoDir := "/r", outputDir := "/out", protoPaths := [], plugins := ["go"]
  , goOpts := [], goGrpcOpts := [], verbose := false
  , foundFiles := ["/r/only.proto"], additionalProtoPaths := []
  , smartFilter := true }

/-- Concrete configuration whose compile set holds one file below the primary
root and one relative path that filepath.Rel rejects against a rooted base. -/
def cMixed : Compiler :=
  { protoDir := "/r", outputDir := "/out", protoPaths := [], plugins := ["go"]
  , goOpts := ["paths=source_relative"], goGrpcOpts := [], verbose := true
  , foundFiles := ["/r/sub/a.proto", "x.proto"], additionalProtoPaths := []
  , smartFilter := true }

/-- Concrete configuration whose single compile file sits in a subdirectory
of the primary root, so its relative path contains a separator. -/
def cNested : Compiler :=
  { protoDir := "/a", outputDir := "/out", protoPaths := [], plugins := []
  , goOpts := [], goGrpcOpts := [], verbose := false
  , foundFiles := ["/a/b/x.proto"], additionalProtoPaths := []
  , smartFilter := true }

/-- Concrete filesystem with one unreadable discovered file next to a
readable one that nothing imports. -/
def fsUnreadable : GoFS :=
  { cwd := "/w"
  , statOk := fun p => p == "/r/u.proto" || p == "/r/v.proto"
  , content := fun p => if p == "/r/v.proto" then some "message V \x7b\x7d" else none }

/-- Concrete configuration over the unreadable-file filesystem. -/
def cUnreadable : Compiler :=
  { protoDir := "/r", outputDir := "/out", protoPaths := [], plugins := ["go"]
  , goOpts := [], goGrpcOpts := [], verbose := false
  , foundFiles := ["/r/u.proto", "/r/v.proto"], additionalProtoPaths := []
  , smartFilter := true }

/-- Concrete root list spelling the same directory with and without trailing
separator and as a path relative to the working directory of fsEmpty. -/
def rootsSpellings : List String := ["/w/r", "/w/r/", "r"]

/-- Concrete filesystem of a two-file import cycle with no service and no
message definitions, under which the keep rule selects nothing. -/
def fsCycle : GoFS :=
  { cwd := "/w"
  , statOk := fun p => p == "/r/a.proto" || p == "/r/b.proto"
  , content := fun p =>
      if p == "/r/a.proto" then some "import \"b.proto\";"
      else if p == "/r/b.proto" then some "import \"a.proto\";"
      else none }

/-- Concrete configuration over the import-cycle filesystem. -/
def cCycle : Compiler :=
  { protoDir := "/r", outputDir := "/out", protoPaths := [], plugins := ["go"]
  , goOpts := [], goGrpcOpts := [], verbose := false
  , foundFiles := ["/r/a.proto", "/r/b.proto"], additionalProtoPaths := []
  , smartFilter := true }

theorem foldl_append_map {α β : Type} (g : α → β) (l : List α) :
    ∀ init : List β, l.foldl (fun a x => a ++ [g x]) init = init ++ l.map g := by
  induction l with
  | nil => intro init; simp
  | cons x xs ih => intro init; simp [ih]

theorem buildCommandArgs_eq (os : GoOS) (c : Compiler) :
    buildCommandArgs os c =
      ["-I", c.protoDir] ++ c.plugins.map (pluginFlag c)
        ++ c.foundFiles.map (fileArg os c) := by
  unfold buildCommandArgs
  rw [foldl_append_map, foldl_append_map]

theorem diagFold_spec (os : GoOS) (c : Compiler) (files : List String) :
    ∀ st : List String × List String,
      files.foldl
        (fun st file =>
          match goRel os c.protoDir file with
          | none =>
            (st.1 ++ [file],
             st.2 ++ (if c.verbose then [outsideWarning file c.protoDir] else []))
          | some relPath => (st.1 ++ [relPath], st.2)) st
      = (st.1 ++ files.map (fileArg os c), st.2 ++ files.flatMap (fileDiag os c)) := by
  induction files with
  | nil => intro st; simp
  | cons f rest ih =>
    intro st
    simp only [List.foldl_cons]
    cases h : goRel os c.protoDir f with
    | none =>
      simp only [h]
      rw [ih]
      simp [fileArg, fileDiag, h]
    | some r =>
      simp only [h]
      rw [ih]
      simp [fileArg, fileDiag, h]

theorem buildCommandDiag_eq (os : GoOS) (c : Compiler) :
    buildCommandDiag os c
      = (buildCommandArgs os c, c.foundFiles.flatMap (fileDiag os c)) := by
  unfold buildCommandDiag
  rw [diagFold_spec, foldl_append_map, buildCommandArgs_eq]
  simp

/-- C6: the assembled argument sequence is ordered as the single search-root
flag for the primary root first, then one output flag per configured plugin
(the plugin name with its joined option list and the output directory, as
pluginFlag forms it), then one argument per compile-set file, which is the
path relative to the primary root whenever filepath.Rel yields one. -/
theorem claim6_buildCommand_layout (os : GoOS) (c : Compiler) :
    buildCommandArgs os c =
        ["-I", c.protoDir] ++ c.plugins.map (pluginFlag c)
          ++ c.foundFiles.map (fileArg os c)
      ∧ ∀ f r, goRel os c.protoDir f = some r → fileArg os c f = r := by
  refine ⟨buildCommandArgs_eq os c, ?_⟩
  intro f r h
  simp [fileArg, h]

theorem claim6_buildCommand_layout_witness :
    fileArg posixOS cMixed "/r/sub/a.proto" = "sub/a.proto" :=
  (claim6_buildCommand_layout posixOS cMixed).2 "/r/sub/a.proto" "sub/a.proto" (by decide)

/-- C7: whenever a compile-set file is emitted as its absolute fallback
because filepath.Rel fails, and verbose output is on, the warning naming that
file appears on the diagnostic channel of the assembler. -/
theorem claim7_absolute_fallback_flagged (os : GoOS) (c : Compiler) (f : String)
    (hv : c.verbose = true) (hf : f ∈ c.foundFiles)
    (hrel : goRel os c.protoDir f = none) :
    f ∈ (buildCommandDiag os c).1 ∧
      outsideWarning f c.protoDir ∈ (buildCommandDiag os c).2 := by
  rw [buildCommandDiag_eq]
  constructor
  · rw [buildCommandArgs_eq]
    have harg : fileArg os c f = f := by simp [fileArg, hrel]
    exact List.mem_append_right _ (harg ▸ List.mem_map_of_mem _ hf)
  · have hd : outsideWarning f c.protoDir ∈ fileDiag os c f := by
      simp [fileDiag, hrel, hv]
    exact List.mem_flatMap.mpr ⟨f, hf, hd⟩

theorem claim7_absolute_fallback_flagged_witness :
    "x.proto" ∈ (buildCommandDiag posixOS cMixed).1 ∧
      outsideWarning "x.proto" "/r" ∈ (buildCommandDiag posixOS cMixed).2 :=
  claim7_absolute_fallback_flagged posixOS cMixed "x.proto"
    (by decide) (by decide) (by decide)

/-- C8 counterexample: on identical inputs whose compile file sits in a
subdirectory of the primary root, the POSIX-semantics and Windows-semantics
embeddings of buildCommand produce textually different argument lists. -/
theorem claim8_counterexample :
    buildCommandArgs posixOS cNested ≠ buildCommandArgs windowsOS cNested := by
  decide

/-- C8 amended: for identical inputs, the POSIX-semantics and the
Windows-semantics embeddings of buildCommand agree on the search-root flag
and every plugin output flag; only the file-path arguments follow the host
separator convention and may differ, since no normalization is applied. -/
theorem claim8_amended_agree_outside_file_args (c : Compiler) :
    (buildCommandArgs posixOS c).take (2 + c.plugins.length)
      = (buildCommandArgs windowsOS c).take (2 + c.plugins.length) := by
  rw [buildCommandArgs_eq, buildCommandArgs_eq]
  have hlen : (["-I", c.protoDir] ++ c.plugins.map (pluginFlag c)).length
      = 2 + c.plugins.length := by
    simp
    omega
  rw [← hlen, List.take_left, List.take_left]

/-- C1: the inclusion filter never returns an empty explicit compile list for
a non-empty discovered list, both as the filter function itself and as
Compile applies it, and an empty keep result falls back to the full
unfiltered discovered list. -/
theorem claim1_filter_never_empty (os : GoOS) (fs : GoFS) (c : Compiler)
    (h : c.foundFiles ≠ []) :
    filterImportedOnlyFiles os fs c ≠ [] ∧ compileSelectFiles os fs c ≠ [] ∧
      (filteredBeforeFallback os fs c = [] →
        filterImportedOnlyFiles os fs c = c.foundFiles) := by
  have hfil : filterImportedOnlyFiles os fs c ≠ [] := by
    unfold filterImportedOnlyFiles
    by_cases h1 : c.foundFiles.length ≤ 1
    · simpa [h1] using h
    · simp only [h1, if_false]
      by_cases h2 : (filteredBeforeFallback os fs c).length = 0
      · simpa [h2] using h
      · simp only [h2, if_false]
        intro hc
        rw [hc] at h2
        simp at h2
  refine ⟨hfil, ?_, ?_⟩
  · unfold compileSelectFiles
    by_cases h1 : c.smartFilter && decide (c.foundFiles.length > 1)
    · simp only [h1, if_true]
      by_cases h2 : (filterImportedOnlyFiles os fs c).length > 0
      · simp only [h2, if_true]
        exact List.length_pos.mp h2 |> fun hne => by
          intro hc
          rw [hc] at h2
          simp at h2
      · simpa [h2] using h
    · simpa [h1] using h
  · intro hfb
    unfold filterImportedOnlyFiles
    by_cases h1 : c.foundFiles.length ≤ 1
    · simp [h1]
    · simp [h1, hfb]

theorem claim1_filter_never_empty_witness :
    filterImportedOnlyFiles posixOS fsCycle cCycle ≠ [] ∧
      compileSelectFiles posixOS fsCycle cCycle ≠ [] ∧
      filterImportedOnlyFiles posixOS fsCycle cCycle = cCycle.foundFiles :=
  have h := claim1_filter_never_empty posixOS fsCycle cCycle (by decide)
  ⟨h.1, h.2.1, h.2.2 (by decide)⟩

/-- C10: a discovery result of at most one file bypasses smart filtering
entirely: the filter returns its input unchanged and the file-selection step
of Compile leaves the found list as it is, regardless of in-degrees or
service and message markers. -/
theorem claim10_single_file_bypass (os : GoOS) (fs : GoFS) (c : Compiler)
    (h : c.foundFiles.length ≤ 1) :
    filterImportedOnlyFiles os fs c = c.foundFiles ∧
      compileSelectFiles os fs c = c.foundFiles := by
  constructor
  · unfold filterImportedOnlyFiles
    simp [h]
  · unfold compileSelectFiles
    have hlt : ¬ c.foundFiles.length > 1 := by omega
    simp [hlt]

theorem claim10_single_file_bypass_witness :
    filterImportedOnlyFiles posixOS fsEmpty cSingle = cSingle.foundFiles ∧
      compileSelectFiles posixOS fsEmpty cSingle = cSingle.foundFiles :=
  claim10_single_file_bypass posixOS fsEmpty cSingle (by decide)

/-- C4: before the fallback rule, a discovered file is kept in the explicit
compile set precisely when its in-degree count is zero, or it has a service
definition, or it has a message definition and its in-degree count is zero;
in particular a file with zero importers and no markers is kept. -/
theorem claim4_keep_rule_iff (os : GoOS) (fs : GoFS) (c : Compiler) (f : String) :
    f ∈ filteredBeforeFallback os fs c ↔
      f ∈ c.foundFiles ∧
        (fileImportCount os fs c f = 0 ∨ fileHasServiceDefinition fs f = true ∨
          (fileHasMessageDefinitions fs f = true ∧ fileImportCount os fs c f = 0)) := by
  unfold filteredBeforeFallback
  rw [List.mem_filter]
  simp only [keepFile, Bool.or_eq_true, Bool.and_eq_true, beq_iff_eq]
  tauto

theorem allImportsMem_skip (fs : GoFS) (f : String) (hun : fs.content f = none)
    (files : List String) (imp : String) :
    allImportsMem fs files imp = allImportsMem fs (files.filter (fun g => g != f)) imp := by
  induction files with
  | nil => rfl
  | cons g rest ih =>
    by_cases hg : g = f
    · subst hg
      simp only [allImportsMem, List.any_cons, List.filter_cons, parseImportsFromFile, hun,
        bne_self_eq_false, Bool.false_eq_true, if_false, Bool.false_or] at ih ⊢
      exact ih
    · have hgf : (g != f) = true := by simp [hg]
      simp only [allImportsMem, List.any_cons, List.filter_cons, hgf, if_true] at ih ⊢
      rw [ih]

/-- C9: an unreadable discovered file is skipped by import scanning without
contributing any in-degree edge and without contributing to the allImports
set of analyzeImports, the filter still completes with an ok result, and the
file itself stays eligible: with in-degree zero it is kept in the explicit
compile list. -/
theorem claim9_unreadable_skipped (os : GoOS) (fs : GoFS) (c : Compiler) (f : String)
    (hun : fs.content f = none) (hf : f ∈ c.foundFiles) :
    (∀ m : String → Nat, countImportsOfFile os fs c.protoDir m f = m) ∧
      (∀ imp, allImportsMem fs c.foundFiles imp
        = allImportsMem fs (c.foundFiles.filter (fun g => g != f)) imp) ∧
      filterImportedOnlyFilesE os fs c = .ok (filterImportedOnlyFiles os fs c) ∧
      (fileImportCount os fs c f = 0 → f ∈ filterImportedOnlyFiles os fs c) := by
  refine ⟨?_, fun imp => allImportsMem_skip fs f hun c.foundFiles imp, ?_, ?_⟩
  · intro m
    simp [countImportsOfFile, parseImportsFromFile, hun]
  · unfold filterImportedOnlyFilesE filterImportedOnlyFiles filteredBeforeFallback
    by_cases h1 : c.foundFiles.length ≤ 1
    · simp [h1]
    · simp only [h1, if_false]
      by_cases h2 : (c.foundFiles.filter (keepFile fs (fileImportCount os fs c))).length = 0
      · simp [h2]
      · simp [h2]
  · intro hc
    unfold filterImportedOnlyFiles
    by_cases h1 : c.foundFiles.length ≤ 1
    · simpa [h1] using hf
    · have hkeep : keepFile fs (fileImportCount os fs c) f = true := by
        simp [keepFile, hc]
      have hmemfil : f ∈ filteredBeforeFallback os fs c :=
        List.mem_filter.mpr ⟨hf, hkeep⟩
      by_cases h2 : (filteredBeforeFallback os fs c).length = 0
      · rw [List.length_eq_zero] at h2
        rw [h2] at hmemfil
        simp at hmemfil
      · simpa [h1, h2] using hmemfil

theorem claim9_unreadable_skipped_witness :
    countImportsOfFile posixOS fsUnreadable cUnreadable.protoDir
        (fun _ => 0) "/r/u.proto" = (fun _ => 0) ∧
      allImportsMem fsUnreadable cUnreadable.foundFiles "b.proto"
        = allImportsMem fsUnreadable
            (cUnreadable.foundFiles.filter (fun g => g != "/r/u.proto")) "b.proto" ∧
      filterImportedOnlyFilesE posixOS fsUnreadable cUnreadable
        = .ok (filterImportedOnlyFiles posixOS fsUnreadable cUnreadable) ∧
      "/r/u.proto" ∈ filterImportedOnlyFiles posixOS fsUnreadable cUnreadable :=
  have h := claim9_unreadable_skipped posixOS fsUnreadable cUnreadable "/r/u.proto"
    (by decide) (by decide)
  ⟨h.1 (fun _ => 0), h.2.1 "b.proto", h.2.2.1, h.2.2.2 (by decide)⟩

/-- C2 counterexample: in the duplicate-import-line scenario only the first
file imports the second (the target file itself resolves no import to
itself), yet the in-degree counter of the target is two, so a single
discovered file contributes more than one to the in-degree of a target. -/
theorem claim2_counterexample :
    fileImportCount posixOS fsDup cDup "/r/b.proto" = 2 ∧
      resolvedOccurrences posixOS fsDup cDup.protoDir "/r/b.proto" "/r/b.proto" = 0 := by
  decide

theorem importFold_eval (os : GoOS) (fs : GoFS) (d src : String) (imports : List String) :
    ∀ (acc : String → Nat) (t : String),
      (imports.foldl
        (fun acc imp =>
          match resolveImportPath os fs imp src d with
          | none => acc
          | some absImportPath => bumpCount acc absImportPath) acc) t
      = acc t +
          (imports.filter (fun imp => resolveImportPath os fs imp src d == some t)).length := by
  induction imports with
  | nil => intro acc t; simp
  | cons i rest ih =>
    intro acc t
    simp only [List.foldl_cons, List.filter_cons]
    cases h : resolveImportPath os fs i src d with
    | none =>
      simp only [h]
      rw [ih]
      simp
    | some a =>
      simp only [h]
      rw [ih]
      by_cases hat : a = t
      · subst hat
        simp [bumpCount]
        omega
      · have hb : ((some a == some t) : Bool) = false := by
          simp [hat]
        have hta : ¬ t = a := fun hh => hat hh.symm
        simp [bumpCount, hta, hb]

theorem countImportsOfFile_eval (os : GoOS) (fs : GoFS) (d : String)
    (m : String → Nat) (f t : String) :
    countImportsOfFile os fs d m f t = m t + resolvedOccurrences os fs d f t := by
  unfold countImportsOfFile resolvedOccurrences
  cases h : parseImportsFromFile fs f with
  | none => simp
  | some imports =>
    simp only []
    rw [importFold_eval]

theorem fileImportCount_foldl_eval (os : GoOS) (fs : GoFS) (d : String)
    (files : List String) :
    ∀ (m : String → Nat) (t : String),
      (files.foldl (countImportsOfFile os fs d) m) t
        = m t + (files.map (fun f => resolvedOccurrences os fs d f t)).sum := by
  induction files with
  | nil => intro m t; simp
  | cons f rest ih =>
    intro m t
    simp only [List.foldl_cons, List.map_cons, List.sum_cons]
    rw [ih, countImportsOfFile_eval]
    omega

/-- C2 amended: the in-degree counter tallies resolved import statements, not
distinct importing files: the count of a target equals the sum, over the
discovered files, of the number of import occurrences in each file whose
resolution yields that target, so duplicate import lines in one file each
contribute one. -/
theorem claim2_amended_statement_count (os : GoOS) (fs : GoFS) (c : Compiler) (t : String) :
    fileImportCount os fs c t
      = (c.foundFiles.map (fun f => resolvedOccurrences os fs c.protoDir f t)).sum := by
  unfold fileImportCount
  rw [fileImportCount_foldl_eval]
  simp

/-- C3 counterexample: an import literal that exists only below an extra
search root is resolved by the four-step order of the specification, but
resolveImportPath, which computes the in-degrees, marks it unresolved: the
extra roots and the upward walk are never consulted. -/
theorem claim3_counterexample :
    specResolveImport posixOS fsExtraRoot "lib/x.proto" "/w/r/a.proto" "/w/r"
        ["/w/e"] 64 = some "/w/e/lib/x.proto" ∧
      resolveImportPath posixOS fsExtraRoot "lib/x.proto" "/w/r/a.proto" "/w/r" = none := by
  decide

/-- C3 amended: resolution of an import literal for the in-degree count tries
exactly two locations in order, the directory of the referencing file and
then the primary source root, the first existing match wins, and the literal
is unresolved precisely when both probes fail. -/
theorem claim3_amended_two_step (os : GoOS) (fs : GoFS) (lit src d : String) :
    resolveImportPath os fs lit src d = specResolveTwoStep os fs lit src d ∧
      (resolveImportPath os fs lit src d = none ↔
        fs.statOk (pathJoin os (pathDir os src) lit) = false ∧
          fs.statOk (pathJoin os d lit) = false) := by
  refine ⟨rfl, ?_⟩
  unfold resolveImportPath
  by_cases h1 : fs.statOk (pathJoin os (pathDir os src) lit) <;>
    by_cases h2 : fs.statOk (pathJoin os d lit) <;>
      simp [h1, h2]

theorem contains_iff_mem (l : List String) (a : String) : l.contains a = true ↔ a ∈ l :=
  List.elem_iff

theorem addIncludePath_seen (canon : String → String) (out : List String) (r : String)
    (hmem : canon r ∈ out.map canon) :
    addIncludePath canon ((out.map canon).reverse, out) r
      = ((out.map canon).reverse, out) := by
  unfold addIncludePath
  simp
  obtain ⟨x, hx, hxe⟩ := List.mem_map.mp hmem
  exact ⟨x, hx, hxe⟩

theorem addIncludePath_new (canon : String → String) (out : List String) (r : String)
    (hmem : canon r ∉ out.map canon) :
    addIncludePath canon ((out.map canon).reverse, out) r
      = ((((out ++ [r]).map canon)).reverse, out ++ [r]) := by
  unfold addIncludePath
  simp
  intro x hx hxe
  exact hmem (List.mem_map.mpr ⟨x, hx, hxe⟩)

theorem nodup_snoc_map (canon : String → String) (out : List String) (r : String)
    (hnd : (out.map canon).Nodup) (hmem : canon r ∉ out.map canon) :
    ((out ++ [r]).map canon).Nodup := by
  rw [List.map_append, List.nodup_append]
  refine ⟨hnd, by simp, ?_⟩
  intro a ha hb
  simp at hb
  rw [hb] at ha
  exact hmem ha

theorem dedup_fold_main (canon : String → String) (roots : List String) :
    ∀ out : List String, (out.map canon).Nodup →
      ∃ t, roots.foldl (addIncludePath canon) ((out.map canon).reverse, out)
          = (((out ++ t).map canon).reverse, out ++ t)
        ∧ ((out ++ t).map canon).Nodup
        ∧ ∀ r ∈ roots, canon r ∈ (out ++ t).map canon := by
  induction roots with
  | nil =>
    intro out h
    exact ⟨[], by simp, by simpa using h, by simp⟩
  | cons r rest ih =>
    intro out h
    simp only [List.foldl_cons]
    by_cases hmem : canon r ∈ out.map canon
    · rw [addIncludePath_seen canon out r hmem]
      obtain ⟨t, heq, hnd, hall⟩ := ih out h
      refine ⟨t, heq, hnd, ?_⟩
      intro x hx
      rcases List.mem_cons.mp hx with hx | hx
      · subst hx
        rw [List.map_append]
        exact List.mem_append_left _ hmem
      · exact hall x hx
    · rw [addIncludePath_new canon out r hmem]
      obtain ⟨t, heq, hnd, hall⟩ := ih (out ++ [r]) (nodup_snoc_map canon out r h hmem)
      refine ⟨r :: t, ?_, ?_, ?_⟩
      · rw [heq]
        simp
      · simpa using hnd
      · intro x hx
        rcases List.mem_cons.mp hx with hx | hx
        · subst hx
          have : canon x ∈ (out ++ [x]).map canon := by
            rw [List.map_append]
            exact List.mem_append_right _ (by simp)
          have h2 := hall
          rw [List.map_append] at this ⊢
          rcases List.mem_append.mp this with hc | hc
          · exact List.mem_append_left _ hc
          · simp at hc
            simp [hc]
        · have := hall x hx
          simpa using this

theorem dedup_fold_fixed (canon : String → String) (l : List String) :
    ∀ out : List String, ((out ++ l).map canon).Nodup →
      l.foldl (addIncludePath canon) ((out.map canon).reverse, out)
        = (((out ++ l).map canon).reverse, out ++ l) := by
  induction l with
  | nil => intro out h; simp
  | cons x rest ih =>
    intro out h
    have hnotin : canon x ∉ out.map canon := by
      intro hmem
      rw [List.map_append, List.nodup_append] at h
      exact h.2.2 hmem (by simp)
    simp only [List.foldl_cons]
    rw [addIncludePath_new canon out x hnotin]
    have h2 : (((out ++ [x]) ++ rest).map canon).Nodup := by
      simpa using h
    have := ih (out ++ [x]) h2
    rw [this]
    simp

/-- C5: the include-path deduplication of the argument assembler emits, for
any canonicalization and any caller-supplied root list, exactly one root per
canonically-distinct directory (the canonical images of the emitted roots are
duplicate-free and each supplied root is represented exactly once), and
re-running the deduplication on its own output leaves it unchanged. -/
theorem claim5_root_dedup (canon : String → String) (roots : List String) :
    ((dedupRoots canon roots).map canon).Nodup ∧
      (∀ r ∈ roots,
        (dedupRoots canon roots).countP (fun p => canon p == canon r) = 1) ∧
      dedupRoots canon (dedupRoots canon roots) = dedupRoots canon roots := by
  obtain ⟨t, heq, hnd, hall⟩ := dedup_fold_main canon roots [] (by simp)
  have hval : dedupRoots canon roots = t := by
    unfold dedupRoots
    rw [show ((([] : List String), ([] : List String)))
        = (((([] : List String)).map canon).reverse, ([] : List String)) from rfl]
    rw [heq]
    simp
  have hndt : (t.map canon).Nodup := by simpa using hnd
  refine ⟨by rw [hval]; exact hndt, ?_, ?_⟩
  · intro r hr
    rw [hval]
    have hcnt : t.countP (fun p => canon p == canon r)
        = (t.map canon).countP (fun a => a == canon r) := by
      rw [List.countP_map]
      rfl
    rw [hcnt]
    have hmem : canon r ∈ t.map canon := by simpa using hall r hr
    have : (t.map canon).count (canon r) = 1 :=
      List.count_eq_one_of_mem hndt hmem
    simpa [List.count] using this
  · rw [hval]
    have := dedup_fold_fixed canon t [] (by simpa using hndt)
    unfold dedupRoots
    rw [show ((([] : List String), ([] : List String)))
        = (((([] : List String)).map canon).reverse, ([] : List String)) from rfl]
    rw [this]
    simp

theorem claim5_root_dedup_witness :
    ((dedupRoots (goAbs posixOS fsEmpty) rootsSpellings).map (goAbs posixOS fsEmpty)).Nodup ∧
      (dedupRoots (goAbs posixOS fsEmpty) rootsSpellings).countP
          (fun p => goAbs posixOS fsEmpty p == goAbs posixOS fsEmpty "/w/r/") = 1 ∧
      dedupRoots (goAbs posixOS fsEmpty) (dedupRoots (goAbs posixOS fsEmpty) rootsSpellings)
        = dedupRoots (goAbs posixOS fsEmpty) rootsSpellings :=
  have h := claim5_root_dedup (goAbs posixOS fsEmpty) rootsSpellings
  ⟨h.1, h.2.1 "/w/r/" (by decide), h.2.2⟩

end ProtocGo
